import Mathlib

/-!
Verification of the tool-calling orchestrator in `backend/ai_generator.py`
(class `AIGenerator`, methods `generate_response` and `_handle_tool_execution`).

The orchestrator talks to two external collaborators:
  * a Model Client (`self.client.messages.create(**params)`), modelled as a
    pure function from the request parameters to a structured response;
  * a Tool Executor (`tool_manager.execute_tool(name, **input)`), modelled as
    a function returning `Except String String` — `.error msg` models a raised
    Python exception whose `str(e)` is `msg`.

The embedding instruments the run with a trace of events (one `modelCall`
event per `client.messages.create` invocation, recording the request and the
response, and one `toolCall` event per `execute_tool` invocation), and tags
the returned text with the return site that produced it, so that properties
about call counts, request contents and control flow can be stated.
-/

/-- A tool specification; the orchestrator only passes these through
(`tools` parameter of the API calls). Mirrors the dict
`{name, description, input_schema}`. -/
structure ToolSpec where
  name : String
  description : String
  input_schema : String
  deriving DecidableEq

/-- A content block of a model response: either a text block or a tool-use
block `{type, id, name, input}`.  The `input` dict is modelled as an
association list of decoded arguments. -/
inductive ContentBlock where
  | text (value : String)
  | toolUse (id : String) (name : String) (input : List (String × String))
  deriving DecidableEq

/-- A model response: `stop_reason` and the list of content blocks. -/
structure ModelResponse where
  stop_reason : String
  content : List ContentBlock
  deriving DecidableEq

/-- A tool result block, as built at lines 138-142 of `ai_generator.py`:
`{"type": "tool_result", "tool_use_id": ..., "content": ...}`. -/
structure ToolResultBlock where
  tool_use_id : String
  content : String
  deriving DecidableEq

/-- The content of a transcript message: the initial user message holds plain
text (the query), assistant messages hold the model response's content blocks,
and the tool-result user messages hold a list of tool result blocks. -/
inductive MessageContent where
  | text (s : String)
  | blocks (bs : List ContentBlock)
  | toolResults (rs : List ToolResultBlock)
  deriving DecidableEq

/-- One transcript message `{"role": ..., "content": ...}`. -/
structure Message where
  role : String
  content : MessageContent
  deriving DecidableEq

/-- The parameters of one `client.messages.create` call that the claims are
about: the transcript, the system string, and the `tools` parameter
(`none` means the `tools` key is absent from the params dict; when `tools`
is present the code always also sets `tool_choice = {"type": "auto"}`, so
that key is determined by `tools` and not modelled separately; the constant
`base_params` entries `model`, `temperature`, `max_tokens` are likewise
fixed and not modelled). -/
structure Request where
  messages : List Message
  system : String
  tools : Option (List ToolSpec)
  deriving DecidableEq

/-- The Model Client: a pure function from request parameters to response. -/
abbrev ModelClient := Request → ModelResponse

/-- The Tool Executor: `execute_tool(name, **args)`;
`.error msg` models a raised exception with `str(e) = msg`. -/
abbrev ToolExecutor := String → List (String × String) → Except String String

/-- Equality of executor outcomes is decidable (used only to evaluate
concrete runs). -/
instance exceptStringDecEq : DecidableEq (Except String String)
  | Except.ok a, Except.ok b =>
    if h : a = b then Decidable.isTrue (congrArg Except.ok h)
    else Decidable.isFalse fun hc => h (Except.ok.inj hc)
  | Except.ok _, Except.error _ => Decidable.isFalse fun hc => Except.noConfusion hc
  | Except.error _, Except.ok _ => Decidable.isFalse fun hc => Except.noConfusion hc
  | Except.error a, Except.error b =>
    if h : a = b then Decidable.isTrue (congrArg Except.error h)
    else Decidable.isFalse fun hc => h (Except.error.inj hc)

/-- Instrumentation: the observable events of one orchestration run. -/
inductive Event where
  | modelCall (req : Request) (resp : ModelResponse)
  | toolCall (name : String) (args : List (String × String))
      (result : Except String String)
  deriving DecidableEq

/-- The result of one orchestration run, tagged with the return site in
`ai_generator.py` that produced it:
  * `direct t` — line 95, `return response.content[0].text`;
  * `next t` — line 178, early return of a follow-up tooled response;
  * `final t` — line 159, the wrap-up call issued without tools;
  * `fallback` — line 184, the fixed diagnostic string;
  * `crash` — a Python exception raised by `response.content[0].text`
    (empty content, or a first block with no `text` attribute). -/
inductive GenResult where
  | direct (t : String)
  | next (t : String)
  | final (t : String)
  | fallback
  | crash
  deriving DecidableEq

/-- The string the caller receives (`none` = a Python exception instead). -/
def resultText : GenResult → Option String
  | .direct t => some t
  | .next t => some t
  | .final t => some t
  | .fallback => some "Maximum tool calling rounds reached without final response."
  | .crash => none

/-- The value `response.content[0].text`: defined exactly when the content list starts
with a text block (otherwise Python raises). -/
def firstText (r : ModelResponse) : Option String :=
  match r.content with
  | ContentBlock.text v :: _ => some v
  | _ => none

/-- Evaluation of `return response.content[0].text` at return site `mk`. -/
def ofText (mk : String → GenResult) (r : ModelResponse) : GenResult :=
  match firstText r with
  | some t => mk t
  | none => GenResult.crash

/-- The `content` of one tool result: the returned string on success, or the
error string built at line 136, `f"Error executing tool: {str(e)}"`. -/
def resultContent : Except String String → String
  | .ok s => s
  | .error e => "Error executing tool: " ++ e

/-- The `for content_block in initial_response.content` loop at lines
126-142: walks the blocks in order; every block of type `tool_use` triggers
one executor invocation (instrumented as a `toolCall` event) and contributes
one tool result block; returns (events, tool_results, has_tool_calls). -/
def processBlocks (execTool : ToolExecutor) :
    List ContentBlock → List Event × List ToolResultBlock × Bool
  | [] => ([], [], false)
  | ContentBlock.text _ :: rest => processBlocks execTool rest
  | ContentBlock.toolUse id name args :: rest =>
    let r := execTool name args
    let pb := processBlocks execTool rest
    (Event.toolCall name args r :: pb.1,
     ⟨id, resultContent r⟩ :: pb.2.1,
     true)

/-- Truthiness test `if tools:` — the `tools` parameter is attached only when the argument is
truthy (not `None` and not the empty list). -/
def attachTools : Option (List ToolSpec) → Option (List ToolSpec)
  | some ts => if ts.isEmpty then none else some ts
  | none => none

/-- The static system prompt `AIGenerator.SYSTEM_PROMPT` (exact text,
including the leading space). -/
def SYSTEM_PROMPT : String := " You are an AI assistant specialized in course materials and educational content with access to comprehensive search tools for course information.

Search Tool Usage:
- Use the search_course_content tool for questions about specific course content or detailed educational materials
- Use the get_course_outline tool for questions about course structure, lesson lists, or course overviews
- **You can make up to 2 tool calls per query** when needed for complex questions
- Use sequential tool calls when you need to:
  1. First gather information with one tool (e.g., get a course outline)
  2. Then use that information with another tool (e.g., search for related content)
- Synthesize search results into accurate, fact-based responses
- If search yields no results, state this clearly without offering alternatives

Response Protocol:
- **General knowledge questions**: Answer using existing knowledge without searching
- **Course-specific questions**: Search first, then answer
- **Course outline questions**: Use the course outline tool and include all course details (title, link, lesson numbers and titles)
- **Complex multi-part questions**: Use sequential tool calls when one search is insufficient
- **No meta-commentary**:
  - Provide direct answers only â€” no reasoning process, search explanations, or question-type analysis
  - Do not mention \"based on the search results\"

All responses must be:
1. **Brief, Concise and focused** - Get to the point quickly
2. **Educational** - Maintain instructional value
3. **Clear** - Use accessible language
4. **Example-supported** - Include relevant examples when they aid understanding
Provide only the direct answer to what was asked.
"

/-- Lines 69-73: the system content is the static prompt, with the previous
conversation appended when `conversation_history` is truthy (present and
non-empty). -/
def systemContent : Option String → String
  | some h =>
    if h = "" then SYSTEM_PROMPT
    else SYSTEM_PROMPT ++ "\n\nPrevious conversation:\n" ++ h
  | none => SYSTEM_PROMPT

/-- The initial request built at lines 76-85: transcript
`[{"role": "user", "content": query}]`, the assembled system content, and
the tools parameter when truthy. -/
def initRequest (query : String) (history : Option String)
    (tools : Option (List ToolSpec)) : Request :=
  ⟨[⟨"user", MessageContent.text query⟩], systemContent history, attachTools tools⟩

/-- The assistant message appended at line 120:
`{"role": "assistant", "content": initial_response.content}`. -/
def assistantMsg (resp : ModelResponse) : Message :=
  ⟨"assistant", MessageContent.blocks resp.content⟩

/-- The tool-results message appended at line 146:
`{"role": "user", "content": tool_results}`. -/
def resultsMsg (rs : List ToolResultBlock) : Message :=
  ⟨"user", MessageContent.toolResults rs⟩

/-- The transcript after one iteration's appends (lines 120 and 144-146):
the assistant message, then — only if there are any tool results — the
single user message carrying all of them. -/
def stepMessages (execTool : ToolExecutor) (resp : ModelResponse)
    (messages : List Message) : List Message :=
  let messages1 := messages ++ [assistantMsg resp]
  let pb := processBlocks execTool resp.content
  if pb.2.1.isEmpty then messages1 else messages1 ++ [resultsMsg pb.2.1]

/-- The parameters of the final call (lines 151-155): the accumulated
transcript, the same system string, and no `tools` parameter. -/
def finalRequest (execTool : ToolExecutor) (sys : String)
    (resp : ModelResponse) (messages : List Message) : Request :=
  ⟨stepMessages execTool resp messages, sys, none⟩

/-- The parameters of the next tooled round (lines 162-171): the accumulated
transcript, the same system string, and the tools parameter when truthy. -/
def nextRequest (execTool : ToolExecutor) (sys : String)
    (tools : Option (List ToolSpec)) (resp : ModelResponse)
    (messages : List Message) : Request :=
  ⟨stepMessages execTool resp messages, sys, attachTools tools⟩

/-- The `while current_round <= max_rounds` loop of `_handle_tool_execution`
(lines 118-184), in the loop variable `remaining = max_rounds + 1 -
current_round` (so `current_round <= max_rounds` iff `remaining ≥ 1`, and
`current_round >= max_rounds` iff `remaining = 1`; the `current_round += 1`
of line 181 becomes the structural decrease of `remaining`).  `resp` is the
current `initial_response`, `messages` the accumulated transcript.
Each iteration: append the assistant message (line 120); run the block loop
(lines 126-142); append the tool results as a single user message if any
(lines 145-146, `stepMessages`); then `if not has_tool_calls or
current_round >= max_rounds` (line 149) issue the final call without tools
and return its text (lines 151-159), else issue the next call with tools
(lines 162-174) and return its text if it no longer requests tool use
(lines 177-178), else continue with the follow-up response.  Exhausting the
loop yields the fallback (line 184). -/
def toolLoop (client : ModelClient) (execTool : ToolExecutor)
    (sys : String) (tools : Option (List ToolSpec)) :
    ModelResponse → List Message → Nat → List Event × GenResult
  | _, _, 0 => ([], GenResult.fallback)
  | resp, messages, remaining + 1 =>
    let pb := processBlocks execTool resp.content
    if pb.2.2 = false ∨ remaining = 0 then
      let finalResp := client (finalRequest execTool sys resp messages)
      (pb.1 ++ [Event.modelCall (finalRequest execTool sys resp messages) finalResp],
       ofText GenResult.final finalResp)
    else
      let nextResp := client (nextRequest execTool sys tools resp messages)
      if nextResp.stop_reason ≠ "tool_use" then
        (pb.1 ++ [Event.modelCall (nextRequest execTool sys tools resp messages) nextResp],
         ofText GenResult.next nextResp)
      else
        let k := toolLoop client execTool sys tools nextResp
          (stepMessages execTool resp messages) remaining
        (pb.1 ++ Event.modelCall (nextRequest execTool sys tools resp messages) nextResp :: k.1,
         k.2)

/-- The method `generate_response` (lines 48-95).  `toolManager` is `none` when
`tool_manager is None` (falsy); any supplied executor object is truthy.
Builds the initial request, issues it, and enters `_handle_tool_execution`
iff the response's stop reason is `"tool_use"` and a tool manager is present
(line 91); otherwise returns `response.content[0].text` (line 95).
The loop starts at `current_round = 1`, i.e. `remaining = maxToolRounds`. -/
def generateResponse (client : ModelClient) (toolManager : Option ToolExecutor)
    (query : String) (history : Option String)
    (tools : Option (List ToolSpec)) (maxToolRounds : Nat) :
    List Event × GenResult :=
  let req := initRequest query history tools
  let resp := client req
  match toolManager with
  | some execTool =>
    if resp.stop_reason = "tool_use" then
      let run := toolLoop client execTool req.system tools resp req.messages maxToolRounds
      (Event.modelCall req resp :: run.1, run.2)
    else
      ([Event.modelCall req resp], ofText GenResult.direct resp)
  | none => ([Event.modelCall req resp], ofText GenResult.direct resp)

/-- Recognizer for model-call events. -/
def isModelCall : Event → Bool
  | .modelCall _ _ => true
  | .toolCall _ _ _ => false

/-- Recognizer for tool-call events. -/
def isToolCall : Event → Bool
  | .modelCall _ _ => false
  | .toolCall _ _ _ => true

/-- Number of Model Client calls recorded in a trace. -/
def numModelCalls (tr : List Event) : Nat := tr.countP isModelCall

/-- The id of a tool-use content block, when it is one. -/
def toolUseId : ContentBlock → Option String
  | .toolUse id _ _ => some id
  | .text _ => none

/-- Transcript roles strictly alternate (no two consecutive messages share a
role). -/
def rolesAlternate (ms : List Message) : Prop :=
  List.Chain' (fun a b => a.role ≠ b.role) ms

/-- The transcript starts with a user message. -/
def startsWithUser (ms : List Message) : Prop :=
  ms.head?.map Message.role = some "user"

/-- Helper: the block loop emits only tool-call events. -/
theorem processBlocks_events_toolCall (execTool : ToolExecutor) :
    ∀ (c : List ContentBlock) (ev : Event),
      ev ∈ (processBlocks execTool c).1 → isToolCall ev = true := by
  intro c
  induction c with
  | nil => intro ev h; simp [processBlocks] at h
  | cons b rest ih =>
    intro ev h
    cases b with
    | text v => exact ih ev h
    | toolUse id name args =>
      simp only [processBlocks, List.mem_cons] at h
      rcases h with h | h
      · subst h; rfl
      · exact ih ev h

/-- Helper: the block loop makes no Model Client calls. -/
theorem processBlocks_numModelCalls (execTool : ToolExecutor) (c : List ContentBlock) :
    List.countP isModelCall (processBlocks execTool c).1 = 0 := by
  rw [List.countP_eq_zero]
  intro ev h
  have := processBlocks_events_toolCall execTool c ev h
  cases ev with
  | modelCall _ _ => simp [isToolCall] at this
  | toolCall _ _ _ => simp [isModelCall]

/-- Helper: there are tool results iff the has-tool-calls flag is set. -/
theorem processBlocks_isEmpty_iff (execTool : ToolExecutor) :
    ∀ c : List ContentBlock,
      ((processBlocks execTool c).2.1 = [] ↔ (processBlocks execTool c).2.2 = false) := by
  intro c
  induction c with
  | nil => simp [processBlocks]
  | cons b rest ih =>
    cases b with
    | text v => exact ih
    | toolUse id name args => simp [processBlocks]

/-- Helper: case analysis on one iteration of the negotiation loop — the
iteration ends in the untooled final call, in the early return of a
follow-up response that stopped requesting tools, or in a recursive
continuation. -/
theorem toolLoop_succ_cases (client : ModelClient) (execTool : ToolExecutor)
    (sys : String) (tools : Option (List ToolSpec)) (resp : ModelResponse)
    (messages : List Message) (rem : Nat) :
    (((processBlocks execTool resp.content).2.2 = false ∨ rem = 0) ∧
      toolLoop client execTool sys tools resp messages (rem + 1) =
        ((processBlocks execTool resp.content).1 ++
          [Event.modelCall (finalRequest execTool sys resp messages)
            (client (finalRequest execTool sys resp messages))],
         ofText GenResult.final (client (finalRequest execTool sys resp messages)))) ∨
    (¬((processBlocks execTool resp.content).2.2 = false ∨ rem = 0) ∧
      (client (nextRequest execTool sys tools resp messages)).stop_reason ≠ "tool_use" ∧
      toolLoop client execTool sys tools resp messages (rem + 1) =
        ((processBlocks execTool resp.content).1 ++
          [Event.modelCall (nextRequest execTool sys tools resp messages)
            (client (nextRequest execTool sys tools resp messages))],
         ofText GenResult.next (client (nextRequest execTool sys tools resp messages)))) ∨
    (¬((processBlocks execTool resp.content).2.2 = false ∨ rem = 0) ∧
      (client (nextRequest execTool sys tools resp messages)).stop_reason = "tool_use" ∧
      toolLoop client execTool sys tools resp messages (rem + 1) =
        ((processBlocks execTool resp.content).1 ++
          Event.modelCall (nextRequest execTool sys tools resp messages)
            (client (nextRequest execTool sys tools resp messages)) ::
          (toolLoop client execTool sys tools
            (client (nextRequest execTool sys tools resp messages))
            (stepMessages execTool resp messages) rem).1,
         (toolLoop client execTool sys tools
            (client (nextRequest execTool sys tools resp messages))
            (stepMessages execTool resp messages) rem).2)) := by
  by_cases hc : (processBlocks execTool resp.content).2.2 = false ∨ rem = 0
  · exact Or.inl ⟨hc, by rw [toolLoop, if_pos hc]⟩
  · by_cases hs : (client (nextRequest execTool sys tools resp messages)).stop_reason = "tool_use"
    · refine Or.inr (Or.inr ⟨hc, hs, ?_⟩)
      rw [toolLoop, if_neg hc]
      simp only [hs, ne_eq, not_true_eq_false, if_false]
    · refine Or.inr (Or.inl ⟨hc, hs, ?_⟩)
      rw [toolLoop, if_neg hc]
      simp only [ne_eq, hs, not_false_eq_true, if_true]

/-- Helper: the function `ofText mk` yields only `mk`-tagged results or a crash. -/
theorem ofText_ne (mk : String → GenResult) (g : GenResult)
    (h : ∀ t, mk t ≠ g) (hc : GenResult.crash ≠ g) (r : ModelResponse) :
    ofText mk r ≠ g := by
  unfold ofText
  cases firstText r with
  | some t => exact h t
  | none => exact hc

/-- Helper: a tagged text result determines the first text of the response
it was read from. -/
theorem ofText_tagged (mk : String → GenResult)
    (hmk : mk = GenResult.direct ∨ mk = GenResult.next ∨ mk = GenResult.final)
    (r : ModelResponse) (t : String)
    (h : ofText mk r = GenResult.direct t ∨ ofText mk r = GenResult.next t ∨
      ofText mk r = GenResult.final t) :
    firstText r = some t := by
  rcases hmk with hmk | hmk | hmk <;> subst hmk <;>
    (unfold ofText at h; revert h; cases hh : firstText r <;> simp_all)

/-- Helper: the negotiation loop makes at most `remaining` Model Client calls. -/
theorem toolLoop_calls_le (client : ModelClient) (execTool : ToolExecutor)
    (sys : String) (tools : Option (List ToolSpec)) :
    ∀ (remaining : Nat) (resp : ModelResponse) (messages : List Message),
      numModelCalls (toolLoop client execTool sys tools resp messages remaining).1 ≤ remaining := by
  intro remaining
  induction remaining with
  | zero => intro resp messages; simp [toolLoop, numModelCalls]
  | succ rem ih =>
    intro resp messages
    rcases toolLoop_succ_cases client execTool sys tools resp messages rem with
      ⟨_, heq⟩ | ⟨_, _, heq⟩ | ⟨_, _, heq⟩ <;>
      rw [heq] <;>
      simp only [numModelCalls, List.countP_append, List.countP_cons,
        processBlocks_numModelCalls, isModelCall, List.countP_nil, if_true, if_false] <;>
      first
        | omega
        | (have h := ih (client (nextRequest execTool sys tools resp messages))
            (stepMessages execTool resp messages)
           simp only [numModelCalls] at h
           omega)

/-- Helper: with at least one remaining round, the loop never falls through
to the fallback return. -/
theorem toolLoop_ne_fallback (client : ModelClient) (execTool : ToolExecutor)
    (sys : String) (tools : Option (List ToolSpec)) :
    ∀ (remaining : Nat) (resp : ModelResponse) (messages : List Message),
      1 ≤ remaining →
      (toolLoop client execTool sys tools resp messages remaining).2 ≠ GenResult.fallback := by
  intro remaining
  induction remaining with
  | zero => intro _ _ h; omega
  | succ rem ih =>
    intro resp messages _
    rcases toolLoop_succ_cases client execTool sys tools resp messages rem with
      ⟨_, heq⟩ | ⟨_, _, heq⟩ | ⟨hc, _, heq⟩ <;> rw [heq]
    · exact ofText_ne _ _ (fun t => by simp) (by simp) _
    · exact ofText_ne _ _ (fun t => by simp) (by simp) _
    · push_neg at hc
      exact ih _ _ (by omega)

/-- Helper: every text result of the loop is the first text of the response
of some Model Client call recorded in the loop's trace. -/
theorem toolLoop_text_src (client : ModelClient) (execTool : ToolExecutor)
    (sys : String) (tools : Option (List ToolSpec)) :
    ∀ (remaining : Nat) (resp : ModelResponse) (messages : List Message) (t : String),
      ((toolLoop client execTool sys tools resp messages remaining).2 = GenResult.direct t ∨
       (toolLoop client execTool sys tools resp messages remaining).2 = GenResult.next t ∨
       (toolLoop client execTool sys tools resp messages remaining).2 = GenResult.final t) →
      ∃ req r2,
        Event.modelCall req r2 ∈ (toolLoop client execTool sys tools resp messages remaining).1 ∧
        firstText r2 = some t := by
  intro remaining
  induction remaining with
  | zero => intro resp messages t h; simp [toolLoop] at h
  | succ rem ih =>
    intro resp messages t h
    rcases toolLoop_succ_cases client execTool sys tools resp messages rem with
      ⟨_, heq⟩ | ⟨_, _, heq⟩ | ⟨_, _, heq⟩ <;> rw [heq] at h ⊢
    · exact ⟨_, _, List.mem_append_right _ (List.mem_singleton_self _),
        ofText_tagged _ (Or.inr (Or.inr rfl)) _ t h⟩
    · exact ⟨_, _, List.mem_append_right _ (List.mem_singleton_self _),
        ofText_tagged _ (Or.inr (Or.inl rfl)) _ t h⟩
    · obtain ⟨req, r2, hmem, hft⟩ := ih _ _ t h
      exact ⟨req, r2, List.mem_append_right _ (List.mem_cons_of_mem _ hmem), hft⟩

/-- Helper: when the loop returns through the wrap-up call, the last event of
its trace is that Model Client call, and its request carries no tools. -/
theorem toolLoop_final_last (client : ModelClient) (execTool : ToolExecutor)
    (sys : String) (tools : Option (List ToolSpec)) :
    ∀ (remaining : Nat) (resp : ModelResponse) (messages : List Message) (t : String),
      (toolLoop client execTool sys tools resp messages remaining).2 = GenResult.final t →
      ∃ req r2,
        (toolLoop client execTool sys tools resp messages remaining).1.getLast? =
          some (Event.modelCall req r2) ∧
        req.tools = none ∧ firstText r2 = some t := by
  intro remaining
  induction remaining with
  | zero => intro resp messages t h; simp [toolLoop] at h
  | succ rem ih =>
    intro resp messages t h
    rcases toolLoop_succ_cases client execTool sys tools resp messages rem with
      ⟨_, heq⟩ | ⟨_, _, heq⟩ | ⟨_, _, heq⟩ <;> rw [heq] at h ⊢
    · refine ⟨finalRequest execTool sys resp messages, _, ?_, rfl,
        ofText_tagged _ (Or.inr (Or.inr rfl)) _ t (Or.inr (Or.inr h))⟩
      rw [List.getLast?_concat]
    · exact absurd h (ofText_ne _ _ (fun s => by simp) (by simp) _)
    · obtain ⟨req, r2, hlast, hnone, hft⟩ := ih _ _ t h
      refine ⟨req, r2, ?_, hnone, hft⟩
      have hne : (toolLoop client execTool sys tools
          (client (nextRequest execTool sys tools resp messages))
          (stepMessages execTool resp messages) rem).1 ≠ [] := by
        intro hnil
        rw [hnil] at hlast
        simp at hlast
      rw [← List.singleton_append, ← List.append_assoc,
        List.getLast?_append_of_ne_nil _ hne]
      exact hlast

/-- Helper: every Model Client call the loop makes carries the system string
the loop was given. -/
theorem toolLoop_system (client : ModelClient) (execTool : ToolExecutor)
    (sys : String) (tools : Option (List ToolSpec)) :
    ∀ (remaining : Nat) (resp : ModelResponse) (messages : List Message)
      (req : Request) (r2 : ModelResponse),
      Event.modelCall req r2 ∈ (toolLoop client execTool sys tools resp messages remaining).1 →
      req.system = sys := by
  intro remaining
  induction remaining with
  | zero => intro resp messages req r2 h; simp [toolLoop] at h
  | succ rem ih =>
    intro resp messages req r2 h
    rcases toolLoop_succ_cases client execTool sys tools resp messages rem with
      ⟨_, heq⟩ | ⟨_, _, heq⟩ | ⟨_, _, heq⟩ <;> rw [heq] at h <;>
      rcases List.mem_append.mp h with h | h
    · exact absurd (processBlocks_events_toolCall execTool _ _ h) (by simp [isToolCall])
    · have he := List.mem_singleton.mp h
      injection he with h1 h2
      subst h1
      rfl
    · exact absurd (processBlocks_events_toolCall execTool _ _ h) (by simp [isToolCall])
    · have he := List.mem_singleton.mp h
      injection he with h1 h2
      subst h1
      rfl
    · exact absurd (processBlocks_events_toolCall execTool _ _ h) (by simp [isToolCall])
    · rcases List.mem_cons.mp h with heq2 | h
      · injection heq2 with h1 h2
        subst h1
        rfl
      · exact ih _ _ _ _ h

/-- Helper: appending one message of a different role preserves strict role
alternation. -/
theorem rolesAlternate_append_single (ms : List Message) (m : Message)
    (halt : rolesAlternate ms)
    (hlast : ∀ x, ms.getLast? = some x → x.role ≠ m.role) :
    rolesAlternate (ms ++ [m]) := by
  rw [rolesAlternate, List.chain'_append]
  refine ⟨halt, List.chain'_singleton m, ?_⟩
  intro x hx y hy
  simp only [List.head?_cons, Option.mem_def, Option.some.injEq] at hy
  subst hy
  exact hlast x hx

/-- Helper: a transcript that alternates, starts with a user message and ends
with a user message still alternates and starts with user after the
iteration's appends; and if any tool results were produced it again ends
with a user message. -/
theorem stepMessages_invariant (execTool : ToolExecutor) (resp : ModelResponse)
    (messages : List Message)
    (halt : rolesAlternate messages)
    (hhead : startsWithUser messages)
    (hlast : messages.getLast?.map Message.role = some "user") :
    rolesAlternate (stepMessages execTool resp messages) ∧
    startsWithUser (stepMessages execTool resp messages) ∧
    ((processBlocks execTool resp.content).2.1 ≠ [] →
      (stepMessages execTool resp messages).getLast?.map Message.role = some "user") := by
  have hne : messages ≠ [] := by
    intro h
    rw [h] at hhead
    simp [startsWithUser] at hhead
  have halt1 : rolesAlternate (messages ++ [assistantMsg resp]) := by
    refine rolesAlternate_append_single _ _ halt ?_
    intro x hx
    rw [hx] at hlast
    simp only [Option.map_some', Option.some.injEq] at hlast
    rw [hlast]
    simp [assistantMsg]
  have hhead1 : startsWithUser (messages ++ [assistantMsg resp]) := by
    rw [startsWithUser, List.head?_append_of_ne_nil _ hne]
    exact hhead
  have hlast1 : (messages ++ [assistantMsg resp]).getLast? = some (assistantMsg resp) :=
    List.getLast?_concat _
  unfold stepMessages
  by_cases he : (processBlocks execTool resp.content).2.1.isEmpty
  · rw [if_pos he]
    refine ⟨halt1, hhead1, ?_⟩
    intro hne2
    exact absurd (List.isEmpty_iff.mp he) hne2
  · rw [if_neg he]
    have hne1 : messages ++ [assistantMsg resp] ≠ [] := by simp
    refine ⟨?_, ?_, ?_⟩
    · refine rolesAlternate_append_single _ _ halt1 ?_
      intro x hx
      rw [hlast1] at hx
      cases hx
      simp [assistantMsg, resultsMsg]
    · rw [startsWithUser, List.head?_append_of_ne_nil _ hne1]
      exact hhead1
    · intro _
      rw [List.getLast?_concat]
      simp [resultsMsg]

/-- Helper: the transcript of every Model Client call made by the loop
strictly alternates roles and starts with a user message, provided the
incoming transcript alternates, starts with user and ends with user. -/
theorem toolLoop_transcripts (client : ModelClient) (execTool : ToolExecutor)
    (sys : String) (tools : Option (List ToolSpec)) :
    ∀ (remaining : Nat) (resp : ModelResponse) (messages : List Message),
      rolesAlternate messages → startsWithUser messages →
      messages.getLast?.map Message.role = some "user" →
      ∀ (req : Request) (r2 : ModelResponse),
        Event.modelCall req r2 ∈ (toolLoop client execTool sys tools resp messages remaining).1 →
        rolesAlternate req.messages ∧ startsWithUser req.messages := by
  intro remaining
  induction remaining with
  | zero => intro resp messages _ _ _ req r2 h; simp [toolLoop] at h
  | succ rem ih =>
    intro resp messages halt hhead hlast req r2 h
    obtain ⟨hstep1, hstep2, hstep3⟩ := stepMessages_invariant execTool resp messages halt hhead hlast
    rcases toolLoop_succ_cases client execTool sys tools resp messages rem with
      ⟨_, heq⟩ | ⟨_, _, heq⟩ | ⟨hc, _, heq⟩ <;> rw [heq] at h <;>
      rcases List.mem_append.mp h with h | h
    · exact absurd (processBlocks_events_toolCall execTool _ _ h) (by simp [isToolCall])
    · have he := List.mem_singleton.mp h
      injection he with h1 h2
      subst h1
      exact ⟨hstep1, hstep2⟩
    · exact absurd (processBlocks_events_toolCall execTool _ _ h) (by simp [isToolCall])
    · have he := List.mem_singleton.mp h
      injection he with h1 h2
      subst h1
      exact ⟨hstep1, hstep2⟩
    · exact absurd (processBlocks_events_toolCall execTool _ _ h) (by simp [isToolCall])
    · rcases List.mem_cons.mp h with heq2 | h
      · injection heq2 with h1 h2
        subst h1
        exact ⟨hstep1, hstep2⟩
      · have hres : (processBlocks execTool resp.content).2.1 ≠ [] := by
          intro hnil
          exact hc (Or.inl ((processBlocks_isEmpty_iff execTool _).mp hnil))
        exact ih _ _ hstep1 hstep2 (hstep3 hres) req r2 h

/-- Helper: running `generate_response` without a tool manager is a single call. -/
theorem generateResponse_no_manager (client : ModelClient) (q : String)
    (h : Option String) (tools : Option (List ToolSpec)) (R : Nat) :
    generateResponse client none q h tools R =
      ([Event.modelCall (initRequest q h tools) (client (initRequest q h tools))],
       ofText GenResult.direct (client (initRequest q h tools))) := rfl

/-- Helper: running `generate_response` whose first response does not request tool
use is a single call. -/
theorem generateResponse_no_tool_use (client : ModelClient) (execTool : ToolExecutor)
    (q : String) (h : Option String) (tools : Option (List ToolSpec)) (R : Nat)
    (hstop : (client (initRequest q h tools)).stop_reason ≠ "tool_use") :
    generateResponse client (some execTool) q h tools R =
      ([Event.modelCall (initRequest q h tools) (client (initRequest q h tools))],
       ofText GenResult.direct (client (initRequest q h tools))) := by
  simp only [generateResponse]
  rw [if_neg hstop]

/-- Helper: running `generate_response` whose first response requests tool use and
that has a tool manager enters the negotiation loop. -/
theorem generateResponse_tool_use (client : ModelClient) (execTool : ToolExecutor)
    (q : String) (h : Option String) (tools : Option (List ToolSpec)) (R : Nat)
    (hstop : (client (initRequest q h tools)).stop_reason = "tool_use") :
    generateResponse client (some execTool) q h tools R =
      (Event.modelCall (initRequest q h tools) (client (initRequest q h tools)) ::
        (toolLoop client execTool (systemContent h) tools (client (initRequest q h tools))
          [⟨"user", MessageContent.text q⟩] R).1,
       (toolLoop client execTool (systemContent h) tools (client (initRequest q h tools))
          [⟨"user", MessageContent.text q⟩] R).2) := by
  simp only [generateResponse]
  rw [if_pos hstop]
  rfl

/-- A sample tool specification, for concrete runs. -/
def demoSpec : ToolSpec := ⟨"search", "a search tool", "object"⟩

/-- A sample tool-use response with a single tool-use block. -/
def demoToolUseResp : ModelResponse :=
  ⟨"tool_use", [ContentBlock.toolUse "id1" "search" [("q", "x")]]⟩

/-- A sample plain-text response. -/
def demoEndResp : ModelResponse := ⟨"end_turn", [ContentBlock.text "answer"]⟩

/-- A client that always answers with plain text. -/
def demoEndClient : ModelClient := fun _ => demoEndResp

/-- A client that requests tool use whenever tools are attached and answers
with plain text otherwise. -/
def demoClient : ModelClient :=
  fun r => if r.tools = none then demoEndResp else demoToolUseResp

/-- A client that requests tool use on the opening request (one message in
the transcript) and answers with plain text on any later request. -/
def demoStagedClient : ModelClient :=
  fun r => if r.messages.length = 1 then demoToolUseResp else demoEndResp

/-- An executor that always succeeds. -/
def demoExec : ToolExecutor := fun _ _ => Except.ok "result"

/-- An executor that always raises. -/
def demoErrExec : ToolExecutor := fun _ _ => Except.error "boom"

/-- Claim C2: when the first model response has a stop reason other than
`"tool_use"`, exactly one Model Client call is made and the text of that
response's first content block is returned unchanged. -/
theorem claim2_fast_path (client : ModelClient) (tm : Option ToolExecutor)
    (q : String) (h : Option String) (tools : Option (List ToolSpec)) (R : Nat)
    (t : String)
    (hstop : (client (initRequest q h tools)).stop_reason ≠ "tool_use")
    (htext : firstText (client (initRequest q h tools)) = some t) :
    (generateResponse client tm q h tools R).1 =
      [Event.modelCall (initRequest q h tools) (client (initRequest q h tools))] ∧
    numModelCalls (generateResponse client tm q h tools R).1 = 1 ∧
    resultText (generateResponse client tm q h tools R).2 = some t := by
  cases tm with
  | none =>
    rw [generateResponse_no_manager]
    exact ⟨rfl, by simp [numModelCalls, isModelCall],
      by simp [ofText, htext, resultText]⟩
  | some e =>
    rw [generateResponse_no_tool_use client e q h tools R hstop]
    exact ⟨rfl, by simp [numModelCalls, isModelCall],
      by simp [ofText, htext, resultText]⟩

/-- Claim C2 witness. -/
theorem claim2_fast_path_witness :
    (demoEndClient (initRequest "hello" none none)).stop_reason ≠ "tool_use" ∧
    ((generateResponse demoEndClient none "hello" none none 2).1 =
      [Event.modelCall (initRequest "hello" none none)
        (demoEndClient (initRequest "hello" none none))] ∧
     numModelCalls (generateResponse demoEndClient none "hello" none none 2).1 = 1 ∧
     resultText (generateResponse demoEndClient none "hello" none none 2).2 = some "answer") :=
  ⟨by decide, claim2_fast_path demoEndClient none "hello" none none 2 "answer"
    (by decide) rfl⟩

/-- A client returning a tool-use response whose first content block is a
text block. -/
def demoMixedClient : ModelClient :=
  fun _ => ⟨"tool_use", [ContentBlock.text "preamble",
    ContentBlock.toolUse "id2" "search" [("q", "y")]]⟩

/-- Claim C10: when the first response requests tool use but no tool manager
was supplied, no tool is executed and no further Model Client call is made:
the trace is the single initial call and the text attribute of its
response's first content block is returned. -/
theorem claim10_no_manager (client : ModelClient) (q : String) (h : Option String)
    (tools : Option (List ToolSpec)) (R : Nat) (t : String)
    (hstop : (client (initRequest q h tools)).stop_reason = "tool_use")
    (htext : firstText (client (initRequest q h tools)) = some t) :
    (generateResponse client none q h tools R).1 =
      [Event.modelCall (initRequest q h tools) (client (initRequest q h tools))] ∧
    List.countP isToolCall (generateResponse client none q h tools R).1 = 0 ∧
    resultText (generateResponse client none q h tools R).2 = some t := by
  rw [generateResponse_no_manager]
  exact ⟨rfl, by simp [isToolCall, isModelCall],
    by simp [ofText, htext, resultText]⟩

/-- Claim C10 witness: a tool-use response whose first block is a text block. -/
theorem claim10_no_manager_witness :
    (demoMixedClient (initRequest "hello" none none)).stop_reason = "tool_use" ∧
    ((generateResponse demoMixedClient none "hello" none none 2).1 =
      [Event.modelCall (initRequest "hello" none none)
        (demoMixedClient (initRequest "hello" none none))] ∧
     List.countP isToolCall (generateResponse demoMixedClient none "hello" none none 2).1 = 0 ∧
     resultText (generateResponse demoMixedClient none "hello" none none 2).2 = some "preamble") :=
  ⟨rfl, claim10_no_manager demoMixedClient "hello" none none 2 "preamble" rfl rfl⟩

/-- Claim C8: against extensionally equal (hence deterministic) Model Client
and Tool Executor functions, two runs of `generate_response` with identical
arguments produce identical traces (transcripts and requests) and identical
results. -/
theorem claim8_deterministic (c1 c2 : ModelClient) (e1 e2 : ToolExecutor)
    (q : String) (h : Option String) (tools : Option (List ToolSpec)) (R : Nat)
    (hcli : ∀ r, c1 r = c2 r) (hexec : ∀ n a, e1 n a = e2 n a) :
    generateResponse c1 (some e1) q h tools R = generateResponse c2 (some e2) q h tools R := by
  have h1 : c1 = c2 := funext hcli
  have h2 : e1 = e2 := funext fun n => funext fun a => hexec n a
  rw [h1, h2]

/-- Claim C8 witness. -/
theorem claim8_deterministic_witness :
    generateResponse demoClient (some demoExec) "q" none (some [demoSpec]) 2 =
      generateResponse demoClient (some demoExec) "q" none (some [demoSpec]) 2 :=
  claim8_deterministic demoClient demoClient demoExec demoExec "q" none (some [demoSpec]) 2
    (fun _ => rfl) (fun _ _ => rfl)

/-- Claim C1: with `max_tool_rounds = R ≥ 1`, a first response that requests
tool use and a tool manager supplied, the run makes at most `R + 1` Model
Client calls; and when the run returns through the wrap-up call issued on
round exhaustion or when no tool was invoked, that last call's request
carries no `tools` parameter. -/
theorem claim1_call_bound (client : ModelClient) (execTool : ToolExecutor)
    (q : String) (h : Option String) (tools : Option (List ToolSpec)) (R : Nat)
    (hR : 1 ≤ R)
    (hstop : (client (initRequest q h tools)).stop_reason = "tool_use") :
    numModelCalls (generateResponse client (some execTool) q h tools R).1 ≤ R + 1 ∧
    (∀ t, (generateResponse client (some execTool) q h tools R).2 = GenResult.final t →
      ∃ req r2,
        (generateResponse client (some execTool) q h tools R).1.getLast? =
          some (Event.modelCall req r2) ∧
        req.tools = none) := by
  rw [generateResponse_tool_use client execTool q h tools R hstop]
  constructor
  · simp only [numModelCalls, List.countP_cons, isModelCall, if_true]
    have hb := toolLoop_calls_le client execTool (systemContent h) tools R
      (client (initRequest q h tools)) [⟨"user", MessageContent.text q⟩]
    simp only [numModelCalls] at hb
    omega
  · intro t hfin
    obtain ⟨req, r2, hlast, hnone, _⟩ :=
      toolLoop_final_last client execTool (systemContent h) tools R
        (client (initRequest q h tools)) [⟨"user", MessageContent.text q⟩] t hfin
    refine ⟨req, r2, ?_, hnone⟩
    have hne : (toolLoop client execTool (systemContent h) tools
        (client (initRequest q h tools)) [⟨"user", MessageContent.text q⟩] R).1 ≠ [] := by
      intro hnil
      rw [hnil] at hlast
      simp at hlast
    rw [← List.singleton_append, List.getLast?_append_of_ne_nil _ hne]
    exact hlast

/-- Claim C1 witness: a run that uses both negotiation rounds and the
wrap-up call. -/
theorem claim1_call_bound_witness :
    1 ≤ 2 ∧ (demoClient (initRequest "q" none (some [demoSpec]))).stop_reason = "tool_use" ∧
    (numModelCalls (generateResponse demoClient (some demoExec) "q" none (some [demoSpec]) 2).1 ≤ 2 + 1 ∧
    (∀ t, (generateResponse demoClient (some demoExec) "q" none (some [demoSpec]) 2).2 = GenResult.final t →
      ∃ req r2,
        (generateResponse demoClient (some demoExec) "q" none (some [demoSpec]) 2).1.getLast? =
          some (Event.modelCall req r2) ∧
        req.tools = none)) :=
  ⟨by decide, by decide,
    claim1_call_bound demoClient demoExec "q" none (some [demoSpec]) 2 (by decide) (by decide)⟩

/-- Claim C5: with `max_tool_rounds ≥ 1` the fallback diagnostic return at
the end of `_handle_tool_execution` is never reached, and every text the
caller receives is the first text of some Model Client response of the run. -/
theorem claim5_no_fallback (client : ModelClient) (tm : Option ToolExecutor)
    (q : String) (h : Option String) (tools : Option (List ToolSpec)) (R : Nat)
    (hR : 1 ≤ R) :
    (generateResponse client tm q h tools R).2 ≠ GenResult.fallback ∧
    (∀ t, ((generateResponse client tm q h tools R).2 = GenResult.direct t ∨
           (generateResponse client tm q h tools R).2 = GenResult.next t ∨
           (generateResponse client tm q h tools R).2 = GenResult.final t) →
      ∃ req r2, Event.modelCall req r2 ∈ (generateResponse client tm q h tools R).1 ∧
        firstText r2 = some t) := by
  cases tm with
  | none =>
    rw [generateResponse_no_manager]
    refine ⟨ofText_ne _ _ (fun t => by simp) (by simp) _, ?_⟩
    intro t ht
    exact ⟨_, _, List.mem_singleton_self _, ofText_tagged _ (Or.inl rfl) _ t ht⟩
  | some e =>
    by_cases hstop : (client (initRequest q h tools)).stop_reason = "tool_use"
    · rw [generateResponse_tool_use client e q h tools R hstop]
      refine ⟨toolLoop_ne_fallback client e (systemContent h) tools R _ _ hR, ?_⟩
      intro t ht
      obtain ⟨req, r2, hmem, hft⟩ :=
        toolLoop_text_src client e (systemContent h) tools R
          (client (initRequest q h tools)) [⟨"user", MessageContent.text q⟩] t ht
      exact ⟨req, r2, List.mem_cons_of_mem _ hmem, hft⟩
    · rw [generateResponse_no_tool_use client e q h tools R hstop]
      refine ⟨ofText_ne _ _ (fun t => by simp) (by simp) _, ?_⟩
      intro t ht
      exact ⟨_, _, List.mem_singleton_self _, ofText_tagged _ (Or.inl rfl) _ t ht⟩

/-- Claim C5 witness. -/
theorem claim5_no_fallback_witness :
    1 ≤ 2 ∧
    ((generateResponse demoClient (some demoExec) "q" none (some [demoSpec]) 2).2 ≠ GenResult.fallback ∧
    (∀ t, ((generateResponse demoClient (some demoExec) "q" none (some [demoSpec]) 2).2 = GenResult.direct t ∨
           (generateResponse demoClient (some demoExec) "q" none (some [demoSpec]) 2).2 = GenResult.next t ∨
           (generateResponse demoClient (some demoExec) "q" none (some [demoSpec]) 2).2 = GenResult.final t) →
      ∃ req r2, Event.modelCall req r2 ∈ (generateResponse demoClient (some demoExec) "q" none (some [demoSpec]) 2).1 ∧
        firstText r2 = some t)) :=
  ⟨by decide, claim5_no_fallback demoClient (some demoExec) "q" none (some [demoSpec]) 2 (by decide)⟩

/-- Claim C6: the transcript of every Model Client call of a run strictly
alternates roles — no two consecutive messages share a role — and starts
with a user message, for any sequence of model responses (including
tool-use responses with no tool-use blocks). -/
theorem claim6_alternation (client : ModelClient) (tm : Option ToolExecutor)
    (q : String) (h : Option String) (tools : Option (List ToolSpec)) (R : Nat)
    (req : Request) (r2 : ModelResponse)
    (hmem : Event.modelCall req r2 ∈ (generateResponse client tm q h tools R).1) :
    rolesAlternate req.messages ∧ startsWithUser req.messages := by
  have hinit1 : rolesAlternate [(⟨"user", MessageContent.text q⟩ : Message)] :=
    List.chain'_singleton _
  have hinit2 : startsWithUser [(⟨"user", MessageContent.text q⟩ : Message)] := rfl
  cases tm with
  | none =>
    rw [generateResponse_no_manager] at hmem
    have he := List.mem_singleton.mp hmem
    injection he with h1 h2
    subst h1
    exact ⟨hinit1, hinit2⟩
  | some e =>
    by_cases hstop : (client (initRequest q h tools)).stop_reason = "tool_use"
    · rw [generateResponse_tool_use client e q h tools R hstop] at hmem
      rcases List.mem_cons.mp hmem with heq | hmem
      · injection heq with h1 h2
        subst h1
        exact ⟨hinit1, hinit2⟩
      · exact toolLoop_transcripts client e (systemContent h) tools R
          (client (initRequest q h tools)) [⟨"user", MessageContent.text q⟩]
          hinit1 hinit2 rfl req r2 hmem
    · rw [generateResponse_no_tool_use client e q h tools R hstop] at hmem
      have he := List.mem_singleton.mp hmem
      injection he with h1 h2
      subst h1
      exact ⟨hinit1, hinit2⟩

/-- Claim C6 witness: the initial call of a concrete run. -/
theorem claim6_alternation_witness :
    rolesAlternate (initRequest "q" none (some [demoSpec])).messages ∧
    startsWithUser (initRequest "q" none (some [demoSpec])).messages :=
  claim6_alternation demoClient (some demoExec) "q" none (some [demoSpec]) 2
    (initRequest "q" none (some [demoSpec]))
    (demoClient (initRequest "q" none (some [demoSpec])))
    (List.mem_cons_self _ _)

/-- Helper: the block loop's executor invocations are exactly the tool-use
blocks of the response, in the order they appear in its content list. -/
theorem processBlocks_events_eq (execTool : ToolExecutor) :
    ∀ c : List ContentBlock,
      (processBlocks execTool c).1 =
        c.filterMap (fun b =>
          match b with
          | ContentBlock.toolUse _ n a => some (Event.toolCall n a (execTool n a))
          | ContentBlock.text _ => none) := by
  intro c
  induction c with
  | nil => simp [processBlocks]
  | cons b rest ih =>
    cases b with
    | text v => simpa [processBlocks] using ih
    | toolUse id name args => simpa [processBlocks] using ih

/-- Helper: the block loop's tool results are exactly one per tool-use
block, in the same order, with the matching `tool_use_id`. -/
theorem processBlocks_results_eq (execTool : ToolExecutor) :
    ∀ c : List ContentBlock,
      (processBlocks execTool c).2.1 =
        c.filterMap (fun b =>
          match b with
          | ContentBlock.toolUse i n a => some ⟨i, resultContent (execTool n a)⟩
          | ContentBlock.text _ => none) := by
  intro c
  induction c with
  | nil => simp [processBlocks]
  | cons b rest ih =>
    cases b with
    | text v => simpa [processBlocks] using ih
    | toolUse id name args => simpa [processBlocks] using ih

/-- Helper: the ids of the produced tool results are the ids of the
tool-use blocks, in order. -/
theorem processBlocks_ids (execTool : ToolExecutor) (c : List ContentBlock) :
    (processBlocks execTool c).2.1.map ToolResultBlock.tool_use_id =
      c.filterMap toolUseId := by
  rw [processBlocks_results_eq]
  induction c with
  | nil => simp
  | cons b rest ih =>
    cases b with
    | text v => simpa [toolUseId] using ih
    | toolUse id name args => simpa [toolUseId] using ih

/-- Helper: when the iteration produced tool results, the transcript grows by
exactly the assistant message followed by the single user message that
carries all the round's tool results. -/
theorem stepMessages_of_results (execTool : ToolExecutor) (resp : ModelResponse)
    (messages : List Message)
    (hne : (processBlocks execTool resp.content).2.1 ≠ []) :
    stepMessages execTool resp messages =
      messages ++ [assistantMsg resp, resultsMsg (processBlocks execTool resp.content).2.1] := by
  unfold stepMessages
  rw [if_neg (by simpa [List.isEmpty_iff] using hne)]
  simp

/-- Helper: with at least one remaining round, the loop's trace starts with
the round's executor invocations followed by a Model Client call whose
request carries the accumulated transcript; the call either is the untooled
wrap-up or carries the attached tools. -/
theorem toolLoop_first_round (client : ModelClient) (execTool : ToolExecutor)
    (sys : String) (tools : Option (List ToolSpec)) (resp : ModelResponse)
    (messages : List Message) (R : Nat) (hR : 1 ≤ R) :
    ∃ tl r2 rest,
      (toolLoop client execTool sys tools resp messages R).1 =
        (processBlocks execTool resp.content).1 ++
          Event.modelCall ⟨stepMessages execTool resp messages, sys, tl⟩ r2 :: rest ∧
      (tl = none ∨ tl = attachTools tools) := by
  obtain ⟨rem, rfl⟩ : ∃ rem, R = rem + 1 := ⟨R - 1, by omega⟩
  rcases toolLoop_succ_cases client execTool sys tools resp messages rem with
    ⟨_, heq⟩ | ⟨_, _, heq⟩ | ⟨_, _, heq⟩
  · exact ⟨none, _, [], by rw [heq]; rfl, Or.inl rfl⟩
  · exact ⟨attachTools tools, _, [], by rw [heq]; rfl, Or.inr rfl⟩
  · exact ⟨attachTools tools, _, _, by rw [heq]; rfl, Or.inr rfl⟩

/-- Claim C4: in a negotiation round, each tool-use block of the model's
response produces exactly one tool result with the matching `tool_use_id`
(in order), the round's results are appended to the transcript as one user
message before the next Model Client call, and a response with exactly one
tool-use block causes exactly one executor invocation with its decoded
arguments. -/
theorem claim4_tool_results (client : ModelClient) (execTool : ToolExecutor)
    (q : String) (h : Option String) (tools : Option (List ToolSpec)) (R : Nat)
    (hR : 1 ≤ R)
    (hstop : (client (initRequest q h tools)).stop_reason = "tool_use")
    (hres : (processBlocks execTool (client (initRequest q h tools)).content).2.1 ≠ []) :
    ((processBlocks execTool (client (initRequest q h tools)).content).2.1.map
        ToolResultBlock.tool_use_id =
      (client (initRequest q h tools)).content.filterMap toolUseId) ∧
    (∃ tl r2 rest,
      (generateResponse client (some execTool) q h tools R).1 =
        Event.modelCall (initRequest q h tools) (client (initRequest q h tools)) ::
          (processBlocks execTool (client (initRequest q h tools)).content).1 ++
          Event.modelCall
            ⟨[⟨"user", MessageContent.text q⟩,
              assistantMsg (client (initRequest q h tools)),
              resultsMsg (processBlocks execTool (client (initRequest q h tools)).content).2.1],
             systemContent h, tl⟩ r2 :: rest) ∧
    (∀ i n a, (client (initRequest q h tools)).content = [ContentBlock.toolUse i n a] →
      (processBlocks execTool (client (initRequest q h tools)).content).1 =
        [Event.toolCall n a (execTool n a)] ∧
      (processBlocks execTool (client (initRequest q h tools)).content).2.1 =
        [⟨i, resultContent (execTool n a)⟩]) := by
  refine ⟨processBlocks_ids execTool _, ?_, ?_⟩
  · rw [generateResponse_tool_use client execTool q h tools R hstop]
    obtain ⟨tl, r2, rest, htr, _⟩ :=
      toolLoop_first_round client execTool (systemContent h) tools
        (client (initRequest q h tools)) [⟨"user", MessageContent.text q⟩] R hR
    rw [stepMessages_of_results execTool _ _ hres] at htr
    refine ⟨tl, r2, rest, ?_⟩
    simp only [htr]
    rfl
  · intro i n a hcontent
    rw [hcontent]
    exact ⟨rfl, rfl⟩

/-- Claim C4 witness. -/
theorem claim4_tool_results_witness :
    1 ≤ 2 ∧
    (demoClient (initRequest "q" none (some [demoSpec]))).stop_reason = "tool_use" ∧
    (processBlocks demoExec (demoClient (initRequest "q" none (some [demoSpec]))).content).2.1 ≠ [] ∧
    (((processBlocks demoExec (demoClient (initRequest "q" none (some [demoSpec]))).content).2.1.map
        ToolResultBlock.tool_use_id =
      (demoClient (initRequest "q" none (some [demoSpec]))).content.filterMap toolUseId) ∧
    (∃ tl r2 rest,
      (generateResponse demoClient (some demoExec) "q" none (some [demoSpec]) 2).1 =
        Event.modelCall (initRequest "q" none (some [demoSpec]))
            (demoClient (initRequest "q" none (some [demoSpec]))) ::
          (processBlocks demoExec (demoClient (initRequest "q" none (some [demoSpec]))).content).1 ++
          Event.modelCall
            ⟨[⟨"user", MessageContent.text "q"⟩,
              assistantMsg (demoClient (initRequest "q" none (some [demoSpec]))),
              resultsMsg (processBlocks demoExec
                (demoClient (initRequest "q" none (some [demoSpec]))).content).2.1],
             systemContent none, tl⟩ r2 :: rest) ∧
    (∀ i n a,
      (demoClient (initRequest "q" none (some [demoSpec]))).content = [ContentBlock.toolUse i n a] →
      (processBlocks demoExec (demoClient (initRequest "q" none (some [demoSpec]))).content).1 =
        [Event.toolCall n a (demoExec n a)] ∧
      (processBlocks demoExec (demoClient (initRequest "q" none (some [demoSpec]))).content).2.1 =
        [⟨i, resultContent (demoExec n a)⟩])) :=
  ⟨by decide, by decide, by decide,
    claim4_tool_results demoClient demoExec "q" none (some [demoSpec]) 2
      (by decide) (by decide) (by decide)⟩

/-- Claim C7: within a single model response the executor invocations happen
strictly in the order of the tool-use blocks in its content list (the block
loop walks the list sequentially), the resulting tool results appear in the
same order, and the round's trace places exactly those invocations, in that
order, between the initial Model Client call and the next one. -/
theorem claim7_sequential_order (client : ModelClient) (execTool : ToolExecutor)
    (q : String) (h : Option String) (tools : Option (List ToolSpec)) (R : Nat)
    (hR : 1 ≤ R)
    (hstop : (client (initRequest q h tools)).stop_reason = "tool_use") :
    ((processBlocks execTool (client (initRequest q h tools)).content).1 =
      (client (initRequest q h tools)).content.filterMap (fun b =>
        match b with
        | ContentBlock.toolUse _ n a => some (Event.toolCall n a (execTool n a))
        | ContentBlock.text _ => none)) ∧
    ((processBlocks execTool (client (initRequest q h tools)).content).2.1 =
      (client (initRequest q h tools)).content.filterMap (fun b =>
        match b with
        | ContentBlock.toolUse i n a => some ⟨i, resultContent (execTool n a)⟩
        | ContentBlock.text _ => none)) ∧
    (∃ req r2 rest,
      (generateResponse client (some execTool) q h tools R).1 =
        Event.modelCall (initRequest q h tools) (client (initRequest q h tools)) ::
          (client (initRequest q h tools)).content.filterMap (fun b =>
            match b with
            | ContentBlock.toolUse _ n a => some (Event.toolCall n a (execTool n a))
            | ContentBlock.text _ => none) ++
          Event.modelCall req r2 :: rest) := by
  refine ⟨processBlocks_events_eq execTool _, processBlocks_results_eq execTool _, ?_⟩
  rw [generateResponse_tool_use client execTool q h tools R hstop]
  obtain ⟨tl, r2, rest, htr, _⟩ :=
    toolLoop_first_round client execTool (systemContent h) tools
      (client (initRequest q h tools)) [⟨"user", MessageContent.text q⟩] R hR
  rw [processBlocks_events_eq] at htr
  exact ⟨⟨stepMessages execTool (client (initRequest q h tools))
      [⟨"user", MessageContent.text q⟩], systemContent h, tl⟩, r2, rest, by rw [htr]; rfl⟩

/-- Claim C7 witness. -/
theorem claim7_sequential_order_witness :
    1 ≤ 2 ∧
    (demoClient (initRequest "q" none (some [demoSpec]))).stop_reason = "tool_use" ∧
    (((processBlocks demoExec (demoClient (initRequest "q" none (some [demoSpec]))).content).1 =
      (demoClient (initRequest "q" none (some [demoSpec]))).content.filterMap (fun b =>
        match b with
        | ContentBlock.toolUse _ n a => some (Event.toolCall n a (demoExec n a))
        | ContentBlock.text _ => none)) ∧
    ((processBlocks demoExec (demoClient (initRequest "q" none (some [demoSpec]))).content).2.1 =
      (demoClient (initRequest "q" none (some [demoSpec]))).content.filterMap (fun b =>
        match b with
        | ContentBlock.toolUse i n a => some ⟨i, resultContent (demoExec n a)⟩
        | ContentBlock.text _ => none)) ∧
    (∃ req r2 rest,
      (generateResponse demoClient (some demoExec) "q" none (some [demoSpec]) 2).1 =
        Event.modelCall (initRequest "q" none (some [demoSpec]))
            (demoClient (initRequest "q" none (some [demoSpec]))) ::
          (demoClient (initRequest "q" none (some [demoSpec]))).content.filterMap (fun b =>
            match b with
            | ContentBlock.toolUse _ n a => some (Event.toolCall n a (demoExec n a))
            | ContentBlock.text _ => none) ++
          Event.modelCall req r2 :: rest)) :=
  ⟨by decide, by decide,
    claim7_sequential_order demoClient demoExec "q" none (some [demoSpec]) 2
      (by decide) (by decide)⟩

/-- Claim C9 counterexample: with a supplied-but-empty conversation history
(`conversation_history = ""`, which is falsy in Python), the system string
sent is the bare `SYSTEM_PROMPT`, not `SYSTEM_PROMPT` followed by the
labeled previous-conversation section, contradicting the claim for this
present-but-empty history. -/
theorem claim9_counterexample :
    (generateResponse demoEndClient none "q" (some "") none 2).1 =
      [Event.modelCall ⟨[⟨"user", MessageContent.text "q"⟩], SYSTEM_PROMPT, none⟩ demoEndResp] ∧
    SYSTEM_PROMPT ≠ SYSTEM_PROMPT ++ "\n\nPrevious conversation:\n" ++ "" := by
  constructor
  · rfl
  · intro hstr
    have hlen := congrArg (fun s : String => s.data.length) hstr
    simp only [String.data_append] at hlen
    simp at hlen

/-- Claim C9 (amended): the system string sent on every Model Client call of
a run equals `systemContent history` — the bare `SYSTEM_PROMPT` when the
history is absent **or empty**, and `SYSTEM_PROMPT` followed by the labeled
previous-conversation section when the history is present and non-empty —
and this same string is reused unchanged on every call of the run. -/
theorem claim9_system_reuse (client : ModelClient) (tm : Option ToolExecutor)
    (q : String) (h : Option String) (tools : Option (List ToolSpec)) (R : Nat) :
    (∀ req r2, Event.modelCall req r2 ∈ (generateResponse client tm q h tools R).1 →
      req.system = systemContent h) ∧
    systemContent none = SYSTEM_PROMPT ∧
    systemContent (some "") = SYSTEM_PROMPT ∧
    (∀ s, s ≠ "" → systemContent (some s) =
      SYSTEM_PROMPT ++ "\n\nPrevious conversation:\n" ++ s) := by
  refine ⟨?_, rfl, rfl, fun s hs => by simp [systemContent, hs]⟩
  intro req r2 hmem
  cases tm with
  | none =>
    rw [generateResponse_no_manager] at hmem
    have he := List.mem_singleton.mp hmem
    injection he with h1 h2
    subst h1
    rfl
  | some e =>
    by_cases hstop : (client (initRequest q h tools)).stop_reason = "tool_use"
    · rw [generateResponse_tool_use client e q h tools R hstop] at hmem
      rcases List.mem_cons.mp hmem with heq | hmem
      · injection heq with h1 h2
        subst h1
        rfl
      · exact toolLoop_system client e (systemContent h) tools R
          (client (initRequest q h tools)) [⟨"user", MessageContent.text q⟩] req r2 hmem
    · rw [generateResponse_no_tool_use client e q h tools R hstop] at hmem
      have he := List.mem_singleton.mp hmem
      injection he with h1 h2
      subst h1
      rfl

/-- Claim C9 (amended) witness. -/
theorem claim9_system_reuse_witness :
    ((∀ req r2, Event.modelCall req r2 ∈
        (generateResponse demoClient (some demoExec) "q" (some "hi") (some [demoSpec]) 2).1 →
      req.system = systemContent (some "hi")) ∧
    systemContent none = SYSTEM_PROMPT ∧
    systemContent (some "") = SYSTEM_PROMPT ∧
    (∀ s, s ≠ "" → systemContent (some s) =
      SYSTEM_PROMPT ++ "\n\nPrevious conversation:\n" ++ s)) :=
  claim9_system_reuse demoClient (some demoExec) "q" (some "hi") (some [demoSpec]) 2

/-- Helper: every tool-use block of a processed content list has its executor
invocation recorded by the block loop. -/
theorem processBlocks_event_mem (execTool : ToolExecutor) (c : List ContentBlock)
    (i n : String) (a : List (String × String))
    (hblock : ContentBlock.toolUse i n a ∈ c) :
    Event.toolCall n a (execTool n a) ∈ (processBlocks execTool c).1 := by
  rw [processBlocks_events_eq]
  exact List.mem_filterMap.mpr ⟨ContentBlock.toolUse i n a, hblock, rfl⟩

/-- Helper: every tool-use block of a processed content list contributes a
tool result with its id and the content computed from the executor outcome. -/
theorem processBlocks_result_mem (execTool : ToolExecutor) (c : List ContentBlock)
    (i n : String) (a : List (String × String))
    (hblock : ContentBlock.toolUse i n a ∈ c) :
    ToolResultBlock.mk i (resultContent (execTool n a)) ∈ (processBlocks execTool c).2.1 := by
  rw [processBlocks_results_eq]
  exact List.mem_filterMap.mpr ⟨ContentBlock.toolUse i n a, hblock, rfl⟩

/-- Helper: when a round's response contains a tool-use block whose
invocation raises, the round records the invocation with the caught error,
and the next Model Client call's transcript contains the single user
results-message holding the matching tool result with the descriptive error
string. -/
theorem toolLoop_error_round (client : ModelClient) (execTool : ToolExecutor)
    (sys : String) (tools : Option (List ToolSpec)) (resp : ModelResponse)
    (messages : List Message) (R : Nat) (hR : 1 ≤ R)
    (i n : String) (a : List (String × String)) (m : String)
    (hblock : ContentBlock.toolUse i n a ∈ resp.content)
    (herr : execTool n a = Except.error m) :
    Event.toolCall n a (Except.error m) ∈
      (toolLoop client execTool sys tools resp messages R).1 ∧
    ∃ req2 r2 rs,
      Event.modelCall req2 r2 ∈ (toolLoop client execTool sys tools resp messages R).1 ∧
      resultsMsg rs ∈ req2.messages ∧
      ToolResultBlock.mk i ("Error executing tool: " ++ m) ∈ rs := by
  obtain ⟨tl, r2, rest, htr, _⟩ :=
    toolLoop_first_round client execTool sys tools resp messages R hR
  have hev := processBlocks_event_mem execTool resp.content i n a hblock
  have hres := processBlocks_result_mem execTool resp.content i n a hblock
  rw [herr] at hev hres
  have hne : (processBlocks execTool resp.content).2.1 ≠ [] := by
    intro hnil
    rw [hnil] at hres
    exact absurd hres (List.not_mem_nil _)
  rw [htr]
  refine ⟨List.mem_append_left _ hev,
    ⟨stepMessages execTool resp messages, sys, tl⟩, r2,
    (processBlocks execTool resp.content).2.1,
    List.mem_append_right _ (List.mem_cons_self _ _), ?_, hres⟩
  show resultsMsg _ ∈ stepMessages execTool resp messages
  rw [stepMessages_of_results execTool resp messages hne]
  simp

/-- Helper: every Model Client call of the loop's trace other than the last
one has its response processed in the following round: any tool-use block of
that response whose invocation raises is recorded with the caught error, and
the matching tool result with the descriptive error string reaches the
transcript of a later Model Client call. -/
theorem toolLoop_processed (client : ModelClient) (execTool : ToolExecutor)
    (sys : String) (tools : Option (List ToolSpec)) :
    ∀ (remaining : Nat) (resp : ModelResponse) (messages : List Message)
      (req : Request) (r2 : ModelResponse),
      Event.modelCall req r2 ∈ (toolLoop client execTool sys tools resp messages remaining).1 →
      (toolLoop client execTool sys tools resp messages remaining).1.getLast? ≠
        some (Event.modelCall req r2) →
      ∀ (i n : String) (a : List (String × String)) (m : String),
        ContentBlock.toolUse i n a ∈ r2.content →
        execTool n a = Except.error m →
        Event.toolCall n a (Except.error m) ∈
          (toolLoop client execTool sys tools resp messages remaining).1 ∧
        ∃ req2 r3 rs,
          Event.modelCall req2 r3 ∈ (toolLoop client execTool sys tools resp messages remaining).1 ∧
          resultsMsg rs ∈ req2.messages ∧
          ToolResultBlock.mk i ("Error executing tool: " ++ m) ∈ rs := by
  intro remaining
  induction remaining with
  | zero => intro resp messages req r2 hmem _ _ _ _ _ _ _; simp [toolLoop] at hmem
  | succ rem ih =>
    intro resp messages req r2 hmem hnotlast i n a m hblock herr
    rcases toolLoop_succ_cases client execTool sys tools resp messages rem with
      ⟨_, heq⟩ | ⟨_, _, heq⟩ | ⟨hc, _, heq⟩ <;> rw [heq] at hmem hnotlast ⊢
    · rcases List.mem_append.mp hmem with hmem | hmem
      · exact absurd (processBlocks_events_toolCall execTool _ _ hmem) (by simp [isToolCall])
      · have he := List.mem_singleton.mp hmem
        rw [List.getLast?_concat] at hnotlast
        exact absurd (congrArg some he.symm) hnotlast
    · rcases List.mem_append.mp hmem with hmem | hmem
      · exact absurd (processBlocks_events_toolCall execTool _ _ hmem) (by simp [isToolCall])
      · have he := List.mem_singleton.mp hmem
        rw [List.getLast?_concat] at hnotlast
        exact absurd (congrArg some he.symm) hnotlast
    · push_neg at hc
      rcases List.mem_append.mp hmem with hmem | hmem
      · exact absurd (processBlocks_events_toolCall execTool _ _ hmem) (by simp [isToolCall])
      · rcases List.mem_cons.mp hmem with he | hmem
        · injection he with h1 h2
          subst h1 h2
          obtain ⟨hev, req2, r3, rs, hm2, hrm, hin⟩ :=
            toolLoop_error_round client execTool sys tools
              (client (nextRequest execTool sys tools resp messages))
              (stepMessages execTool resp messages) rem (by omega) i n a m hblock herr
          exact ⟨List.mem_append_right _ (List.mem_cons_of_mem _ hev),
            req2, r3, rs, List.mem_append_right _ (List.mem_cons_of_mem _ hm2), hrm, hin⟩
        · have hkne : (toolLoop client execTool sys tools
              (client (nextRequest execTool sys tools resp messages))
              (stepMessages execTool resp messages) rem).1 ≠ [] :=
            List.ne_nil_of_mem hmem
          rw [← List.singleton_append, ← List.append_assoc,
            List.getLast?_append_of_ne_nil _ hkne] at hnotlast
          obtain ⟨hev, req2, r3, rs, hm2, hrm, hin⟩ :=
            ih _ _ req r2 hmem hnotlast i n a m hblock herr
          exact ⟨List.mem_append_right _ (List.mem_cons_of_mem _ hev),
            req2, r3, rs, List.mem_append_right _ (List.mem_cons_of_mem _ hm2), hrm, hin⟩

/-- Helper: the tool results and the has-tool-calls flag depend on the
executor only through the content string of each outcome — a raising
executor and one returning the same error string successfully are
indistinguishable past the except-clause. -/
theorem processBlocks_snd_congr (e1 e2 : ToolExecutor)
    (hrc : ∀ n a, resultContent (e1 n a) = resultContent (e2 n a)) :
    ∀ c : List ContentBlock, (processBlocks e1 c).2 = (processBlocks e2 c).2 := by
  intro c
  induction c with
  | nil => rfl
  | cons b rest ih =>
    cases b with
    | text v => exact ih
    | toolUse id name args =>
      simp only [processBlocks]
      rw [hrc name args, ih]

/-- Helper: the transcript growth of one round is likewise independent of
whether tool outcomes were raised or returned. -/
theorem stepMessages_congr (e1 e2 : ToolExecutor)
    (hrc : ∀ n a, resultContent (e1 n a) = resultContent (e2 n a))
    (resp : ModelResponse) (messages : List Message) :
    stepMessages e1 resp messages = stepMessages e2 resp messages := by
  simp only [stepMessages]
  rw [congrArg Prod.fst (processBlocks_snd_congr e1 e2 hrc resp.content)]

/-- Helper: the loop's result is independent of whether tool outcomes were
raised or returned, as long as the content strings agree. -/
theorem toolLoop_result_congr (client : ModelClient) (sys : String)
    (tools : Option (List ToolSpec)) (e1 e2 : ToolExecutor)
    (hrc : ∀ n a, resultContent (e1 n a) = resultContent (e2 n a)) :
    ∀ (remaining : Nat) (resp : ModelResponse) (messages : List Message),
      (toolLoop client e1 sys tools resp messages remaining).2 =
        (toolLoop client e2 sys tools resp messages remaining).2 := by
  intro remaining
  induction remaining with
  | zero => intro resp messages; rfl
  | succ rem ih =>
    intro resp messages
    have hflag : (processBlocks e1 resp.content).2.2 = (processBlocks e2 resp.content).2.2 :=
      congrArg Prod.snd (processBlocks_snd_congr e1 e2 hrc resp.content)
    have hfin : finalRequest e1 sys resp messages = finalRequest e2 sys resp messages := by
      simp only [finalRequest, stepMessages_congr e1 e2 hrc]
    have hnext : nextRequest e1 sys tools resp messages = nextRequest e2 sys tools resp messages := by
      simp only [nextRequest, stepMessages_congr e1 e2 hrc]
    simp only [toolLoop, hflag, hfin, hnext, stepMessages_congr e1 e2 hrc]
    by_cases hc : (processBlocks e2 resp.content).2.2 = false ∨ rem = 0
    · simp only [if_pos hc]
    · simp only [if_neg hc]
      by_cases hs : (client (nextRequest e2 sys tools resp messages)).stop_reason ≠ "tool_use"
      · simp only [if_pos hs]
      · simp only [if_neg hs]
        exact ih _ _

/-- Helper: the run's final result is independent of whether tool outcomes
were raised or returned, as long as the content strings agree: executor
exceptions are swallowed into result content and never escape into the
answer. -/
theorem generateResponse_result_congr (client : ModelClient) (e1 e2 : ToolExecutor)
    (q : String) (h : Option String) (tools : Option (List ToolSpec)) (R : Nat)
    (hrc : ∀ n a, resultContent (e1 n a) = resultContent (e2 n a)) :
    (generateResponse client (some e1) q h tools R).2 =
      (generateResponse client (some e2) q h tools R).2 := by
  by_cases hstop : (client (initRequest q h tools)).stop_reason = "tool_use"
  · rw [generateResponse_tool_use client e1 q h tools R hstop,
      generateResponse_tool_use client e2 q h tools R hstop]
    exact toolLoop_result_congr client (systemContent h) tools e1 e2 hrc R _ _
  · rw [generateResponse_no_tool_use client e1 q h tools R hstop,
      generateResponse_no_tool_use client e2 q h tools R hstop]

/-- Claim C3: in every execution in which the tool executor raises on some
invocation — any round, any number of tool-use blocks — no exception escapes
`generate_response`.  Stated over an arbitrary Model Client call of the run
that is not the run's last (exactly the calls whose responses the loop goes
on to process) and an arbitrary tool-use block of its response whose
invocation raises: the invocation happens and its caught error is recorded;
the tool result with the matching id carries the descriptive error string
and the transcript advances with it — it is part of a results user-message
sent to a later Model Client call; the run never ends in the fallback; and
the final answer equals the answer of the same run against a non-raising
executor returning the same content strings, so the failure is swallowed
into the result and a final answer string is still returned. -/
theorem claim3_error_swallowed (client : ModelClient) (execTool : ToolExecutor)
    (q : String) (h : Option String) (tools : Option (List ToolSpec)) (R : Nat)
    (req : Request) (resp : ModelResponse)
    (i n : String) (a : List (String × String)) (m : String)
    (hmem : Event.modelCall req resp ∈ (generateResponse client (some execTool) q h tools R).1)
    (hnotlast : (generateResponse client (some execTool) q h tools R).1.getLast? ≠
      some (Event.modelCall req resp))
    (hblock : ContentBlock.toolUse i n a ∈ resp.content)
    (herr : execTool n a = Except.error m) :
    Event.toolCall n a (Except.error m) ∈
      (generateResponse client (some execTool) q h tools R).1 ∧
    (∃ req2 r2 rs,
      Event.modelCall req2 r2 ∈ (generateResponse client (some execTool) q h tools R).1 ∧
      resultsMsg rs ∈ req2.messages ∧
      ToolResultBlock.mk i ("Error executing tool: " ++ m) ∈ rs) ∧
    (generateResponse client (some execTool) q h tools R).2 ≠ GenResult.fallback ∧
    (∀ execTool' : ToolExecutor,
      (∀ n' a', resultContent (execTool' n' a') = resultContent (execTool n' a')) →
      (generateResponse client (some execTool') q h tools R).2 =
        (generateResponse client (some execTool) q h tools R).2) := by
  by_cases hstop : (client (initRequest q h tools)).stop_reason = "tool_use"
  · rw [generateResponse_tool_use client execTool q h tools R hstop] at hmem hnotlast ⊢
    have hloopne : (toolLoop client execTool (systemContent h) tools
        (client (initRequest q h tools)) [⟨"user", MessageContent.text q⟩] R).1 ≠ [] := by
      rcases List.mem_cons.mp hmem with he | hmem'
      · intro hnil
        rw [hnil] at hnotlast
        exact hnotlast (congrArg some he.symm)
      · exact List.ne_nil_of_mem hmem'
    have hR1 : 1 ≤ R := by
      cases R with
      | zero => exact absurd rfl hloopne
      | succ r => omega
    have hgen2 : (generateResponse client (some execTool) q h tools R).2 =
        (toolLoop client execTool (systemContent h) tools (client (initRequest q h tools))
          [⟨"user", MessageContent.text q⟩] R).2 := by
      rw [generateResponse_tool_use client execTool q h tools R hstop]
    have hcongr : ∀ execTool' : ToolExecutor,
        (∀ n' a', resultContent (execTool' n' a') = resultContent (execTool n' a')) →
        (generateResponse client (some execTool') q h tools R).2 =
          (toolLoop client execTool (systemContent h) tools (client (initRequest q h tools))
            [⟨"user", MessageContent.text q⟩] R).2 :=
      fun e' hrc =>
        (generateResponse_result_congr client e' execTool q h tools R hrc).trans hgen2
    have hnofb : (toolLoop client execTool (systemContent h) tools
        (client (initRequest q h tools)) [⟨"user", MessageContent.text q⟩] R).2 ≠
        GenResult.fallback :=
      toolLoop_ne_fallback client execTool (systemContent h) tools R _ _ hR1
    rcases List.mem_cons.mp hmem with he | hmem'
    · injection he with h1 h2
      subst h1 h2
      obtain ⟨hev, req2, r3, rs, hm2, hrm, hin⟩ :=
        toolLoop_error_round client execTool (systemContent h) tools
          (client (initRequest q h tools)) [⟨"user", MessageContent.text q⟩] R hR1
          i n a m hblock herr
      exact ⟨List.mem_cons_of_mem _ hev,
        ⟨req2, r3, rs, List.mem_cons_of_mem _ hm2, hrm, hin⟩, hnofb, hcongr⟩
    · rw [← List.singleton_append, List.getLast?_append_of_ne_nil _ hloopne] at hnotlast
      obtain ⟨hev, req2, r3, rs, hm2, hrm, hin⟩ :=
        toolLoop_processed client execTool (systemContent h) tools R _ _ req resp
          hmem' hnotlast i n a m hblock herr
      exact ⟨List.mem_cons_of_mem _ hev,
        ⟨req2, r3, rs, List.mem_cons_of_mem _ hm2, hrm, hin⟩, hnofb, hcongr⟩
  · rw [generateResponse_no_tool_use client execTool q h tools R hstop] at hmem hnotlast
    have he := List.mem_singleton.mp hmem
    have hlast : ([Event.modelCall (initRequest q h tools)
        (client (initRequest q h tools))].getLast? : Option Event) =
        some (Event.modelCall (initRequest q h tools) (client (initRequest q h tools))) := rfl
    rw [hlast] at hnotlast
    exact absurd (congrArg some he.symm) hnotlast

/-- Claim C3 witness: a concrete run whose first (not-last) model call's
response requests one tool whose invocation raises. -/
theorem claim3_error_swallowed_witness :
    Event.modelCall (initRequest "q" none none) demoToolUseResp ∈
      (generateResponse demoStagedClient (some demoErrExec) "q" none none 2).1 ∧
    (generateResponse demoStagedClient (some demoErrExec) "q" none none 2).1.getLast? ≠
      some (Event.modelCall (initRequest "q" none none) demoToolUseResp) ∧
    ContentBlock.toolUse "id1" "search" [("q", "x")] ∈ demoToolUseResp.content ∧
    demoErrExec "search" [("q", "x")] = Except.error "boom" ∧
    (Event.toolCall "search" [("q", "x")] (Except.error "boom") ∈
      (generateResponse demoStagedClient (some demoErrExec) "q" none none 2).1 ∧
    (∃ req2 r2 rs,
      Event.modelCall req2 r2 ∈
        (generateResponse demoStagedClient (some demoErrExec) "q" none none 2).1 ∧
      resultsMsg rs ∈ req2.messages ∧
      ToolResultBlock.mk "id1" ("Error executing tool: " ++ "boom") ∈ rs) ∧
    (generateResponse demoStagedClient (some demoErrExec) "q" none none 2).2 ≠
      GenResult.fallback ∧
    (∀ execTool' : ToolExecutor,
      (∀ n' a', resultContent (execTool' n' a') = resultContent (demoErrExec n' a')) →
      (generateResponse demoStagedClient (some execTool') "q" none none 2).2 =
        (generateResponse demoStagedClient (some demoErrExec) "q" none none 2).2)) :=
  ⟨List.mem_cons_self _ _, by decide, by decide, rfl,
    claim3_error_swallowed demoStagedClient demoErrExec "q" none none 2
      (initRequest "q" none none) demoToolUseResp "id1" "search" [("q", "x")] "boom"
      (List.mem_cons_self _ _) (by decide) (by decide) rfl⟩
